import Mathlib

/-!
Shallow embedding of the Befunge-93 interpreter in `src/main.rs`.

Modelling conventions:
* Rust `i32` is modelled as `Int` (no claim under consideration involves
  32-bit overflow); `u8` payloads are modelled as `Nat` values below 256,
  with the Rust cast `as u8` written explicitly as `% 256`.
* The Rust operand stack is a `Vec<i32>` pushed/popped at its end; it is
  modelled as a `List Int` whose HEAD is the top of the stack
  (Rust `vec![1, 2]`, top `2`, corresponds to `[2, 1]` here).
* The program `Vec<String>` is modelled as `List (List Char)`.
* A Rust `panic!` / `expect` failure is modelled as `none`: fallible
  functions return `Option`.  In `Operator::Division` the closure
  `|x, y| y / x` panics when `x = 0`, so the closures handed to
  `mathematical_operation` return `Option Int`.
* Rust `idx as usize` on a negative `i32` wraps to a value far beyond any
  list length, so a lookup at a negative index is modelled as the failed
  lookup `none`.
* Rust integer division `/` on `i32` truncates toward zero; it is modelled
  by `Int.tdiv`.
-/

/-- `ProgramPosition { row, col }` from the source. -/
structure ProgramPosition where
  row : Int
  col : Int

/-- `enum Direction` from the source. -/
inductive Direction where
  | Up
  | Down
  | Left
  | Right
deriving DecidableEq, Repr

/-- `Direction::get_move`: the unit move vector of a direction. -/
def Direction.get_move : Direction → ProgramPosition
  | Direction.Up => ⟨-1, 0⟩
  | Direction.Right => ⟨0, 1⟩
  | Direction.Down => ⟨1, 0⟩
  | Direction.Left => ⟨0, -1⟩

/-- `enum Operator` from the source. -/
inductive Operator where
  | PushDigit (d : Nat)
  | PushAsciiValue (c : Nat)
  | Addition
  | Subtraction
  | Multiplication
  | Division
  | ToggleStringMode
  | Pop
  | Duplicate
  | PopMoveHorizontal
  | PopMoveVertical
  | Get
  | SetDirection (d : Direction)
  | Bridge
  | NoOp
  | Unknown (c : Char)
  | End
deriving DecidableEq, Repr

/-- `enum ReaderMode` from the source. -/
inductive ReaderMode where
  | Normal
  | String
deriving DecidableEq, Repr

/-- The double-quote character `"` (code point 34). -/
def quoteChar : Char := Char.ofNat 34

/-- `parse_operator` from the source: maps `(reader_mode, c)` to an
`Operator`.  In string mode the Rust code pushes `c as u8`, i.e. the code
point truncated to its low byte, modelled by `% 256`. -/
def parse_operator (reader_mode : ReaderMode) (c : Char) : Operator :=
  match reader_mode with
  | ReaderMode.Normal =>
    if 48 ≤ c.toNat ∧ c.toNat ≤ 57 then Operator.PushDigit (c.toNat - 48)
    else if c = ' ' then Operator.NoOp
    else if c = '+' then Operator.Addition
    else if c = '-' then Operator.Subtraction
    else if c = '*' then Operator.Multiplication
    else if c = '/' then Operator.Division
    else if c = quoteChar then Operator.ToggleStringMode
    else if c = ':' then Operator.Duplicate
    else if c = ',' then Operator.Pop
    else if c = '_' then Operator.PopMoveHorizontal
    else if c = '|' then Operator.PopMoveVertical
    else if c = 'g' then Operator.Get
    else if c = '>' then Operator.SetDirection Direction.Right
    else if c = '<' then Operator.SetDirection Direction.Left
    else if c = '^' then Operator.SetDirection Direction.Up
    else if c = 'v' then Operator.SetDirection Direction.Down
    else if c = '#' then Operator.Bridge
    else if c = '@' then Operator.End
    else Operator.Unknown c
  | ReaderMode.String =>
    if c = quoteChar then Operator.ToggleStringMode
    else Operator.PushAsciiValue (c.toNat % 256)

/-- `put_ret` from the source: append a value to a vector. -/
def put_ret {α : Type} (v : List α) (val : α) : List α :=
  v ++ [val]

/-- `mathematical_operation` from the source: pop `opx` (first, the top)
and `opy` (second), push `operation opx opy`.  With fewer than two values
the Rust code panics (`none` here); the closure result is an `Option` so
that the division closure can model its own division-by-zero panic. -/
def mathematical_operation (stack : List Int) (operation : Int → Int → Option Int) :
    Option (List Int) :=
  match stack with
  | opx :: opy :: rest => (operation opx opy).map fun r => r :: rest
  | _ => none

/-- `struct InterpreterState` from the source. -/
structure InterpreterState where
  direction : Direction
  row : Int
  col : Int
  mode : ReaderMode
  stack : List Int
  program : List (List Char)
  output : List Char
  terminated : Bool
deriving DecidableEq, Repr

/-- `InterpreterState::new` from the source. -/
def InterpreterState.new (program : List (List Char)) : InterpreterState where
  direction := Direction.Right
  row := 0
  col := 0
  mode := ReaderMode.Normal
  stack := []
  program := program
  output := []
  terminated := false

/-- `get_operator` from the source: look the character up at
`(row, col)` and decode it; the two `expect`s (row out of range, column
out of range, or a negative coordinate wrapped by `as usize`) are the
`none` cases. -/
def get_operator (program : List (List Char)) (pos : ProgramPosition)
    (reader_mode : ReaderMode) : Option Operator :=
  match (if 0 ≤ pos.row then program[pos.row.toNat]? else none) with
  | none => none
  | some ln =>
    match (if 0 ≤ pos.col then ln[pos.col.toNat]? else none) with
    | none => none
    | some c => some (parse_operator reader_mode c)

/-- `next_operation` from the source: `none` when the state is terminated
(the iterator is exhausted); otherwise `some` of the decode result, whose
own `none` is the `expect` panic inside `get_operator`. -/
def next_operation (s : InterpreterState) : Option (Option Operator) :=
  if !s.terminated then
    some (get_operator s.program ⟨s.row, s.col⟩ s.mode)
  else
    none

/-- `interpret` from the source: apply one operator to the state, then
unconditionally advance the position by the unit vector of the (possibly
just-updated) direction.  `none` models the panics (math underflow,
`Pop` on an empty stack, `Get` with fewer than two values, `Unknown`). -/
def interpret (state : InterpreterState) (operator : Operator) : Option InterpreterState :=
  let partial_update : Option InterpreterState :=
    match operator with
    | Operator.PushDigit d =>
      some { state with stack := (d : Int) :: state.stack }
    | Operator.PushAsciiValue c =>
      some { state with stack := (c : Int) :: state.stack }
    | Operator.Addition =>
      (mathematical_operation state.stack fun x y => some (x + y)).map
        fun st => { state with stack := st }
    | Operator.Subtraction =>
      (mathematical_operation state.stack fun x y => some (y - x)).map
        fun st => { state with stack := st }
    | Operator.Multiplication =>
      (mathematical_operation state.stack fun x y => some (x * y)).map
        fun st => { state with stack := st }
    | Operator.Division =>
      (mathematical_operation state.stack fun x y =>
          if x = 0 then none else some (Int.tdiv y x)).map
        fun st => { state with stack := st }
    | Operator.Duplicate =>
      let new_stack : List Int :=
        match state.stack with
        | [] => []
        | last :: rest => last :: last :: rest
      some { state with stack := new_stack }
    | Operator.Pop =>
      match state.stack with
      | [] => none
      | v :: rest =>
        let out : Char := Char.ofNat (v % 256).toNat
        some { state with stack := rest, output := put_ret state.output out }
    | Operator.PopMoveHorizontal =>
      let popped : Int × List Int :=
        match state.stack with
        | [] => (0, [])
        | v :: rest => (v, rest)
      some { state with
              stack := popped.2,
              direction := if popped.1 = 0 then Direction.Right else Direction.Left }
    | Operator.PopMoveVertical =>
      let popped : Int × List Int :=
        match state.stack with
        | [] => (0, [])
        | v :: rest => (v, rest)
      some { state with
              stack := popped.2,
              direction := if popped.1 = 0 then Direction.Down else Direction.Up }
    | Operator.Get =>
      match state.stack with
      | y :: x :: rest =>
        let ln? : Option (List Char) :=
          if 0 ≤ x then state.program[x.toNat]? else none
        let c : Int :=
          match ln? with
          | some ln =>
            match (if 0 ≤ y then ln[y.toNat]? else none) with
            | some ch => (ch.toNat : Int)
            | none => 0
          | none => 0
        some { state with stack := c :: rest }
      | _ => none
    | Operator.ToggleStringMode =>
      some { state with
              mode := match state.mode with
                      | ReaderMode.String => ReaderMode.Normal
                      | ReaderMode.Normal => ReaderMode.String }
    | Operator.SetDirection direction =>
      some { state with direction := direction }
    | Operator.Bridge =>
      let mv := Direction.get_move state.direction
      some { state with row := state.row + mv.row, col := state.col + mv.col }
    | Operator.NoOp => some state
    | Operator.End => some { state with terminated := true }
    | Operator.Unknown _ => none
  partial_update.map fun p =>
    let mv := Direction.get_move p.direction
    { p with row := p.row + mv.row, col := p.col + mv.col }

/-- The driver loop (`Iterator for Interpreter`): run `n` steps, stopping
with `none` if the iterator panics or is exhausted before `n` steps. -/
def runSteps : InterpreterState → Nat → Option InterpreterState
  | s, 0 => some s
  | s, Nat.succ n =>
    match next_operation s with
    | some (some op) =>
      match interpret s op with
      | some s2 => runSteps s2 n
      | none => none
    | _ => none

/-- States reachable from `InterpreterState.new program` by iterator
steps (`next_operation` then `interpret`). -/
inductive Reachable (program : List (List Char)) : InterpreterState → Prop
  | init : Reachable program (InterpreterState.new program)
  | step (s s' : InterpreterState) (op : Operator) :
      Reachable program s →
      next_operation s = some (some op) →
      interpret s op = some s' →
      Reachable program s'

/-- The in-bounds grid lookup used to state `Get`'s behaviour: the
character at row `x`, column `y`, when both indices are in range. -/
def gridCharAt (prog : List (List Char)) (x y : Int) : Option Char :=
  if 0 ≤ x ∧ 0 ≤ y then
    prog[x.toNat]?.bind fun ln => ln[y.toNat]?
  else
    none

/-- The value `Get` pushes: the code point at `(x, y)`, or `0` when the
lookup is out of range. -/
def gridGet (prog : List (List Char)) (x y : Int) : Int :=
  match gridCharAt prog x y with
  | some ch => (ch.toNat : Int)
  | none => 0

/-! ## Claims -/

/-- Claim C1: with `a` the value popped first (the top) and `b` the value
popped second, `Subtraction` pushes `b - a` and `Division` pushes `b ÷ a`
truncating toward zero (`Int.tdiv`); the program `12-,@` computes `-1`
from `Subtraction`, and the truncation is toward zero (e.g. `-7 ÷ 2 = -3`,
not `-4`). -/
theorem C1_sub_div_semantics (s : InterpreterState) (a b : Int) (rest : List Int)
    (hs : s.stack = a :: b :: rest) :
    (interpret s Operator.Subtraction).map InterpreterState.stack = some ((b - a) :: rest)
    ∧ (a ≠ 0 →
        (interpret s Operator.Division).map InterpreterState.stack
          = some (Int.tdiv b a :: rest))
    ∧ (runSteps (InterpreterState.new [['1', '2', '-', ',', '@']]) 3).map
        InterpreterState.stack = some [-1]
    ∧ (interpret { InterpreterState.new [] with stack := [2, -7] }
        Operator.Division).map InterpreterState.stack = some [-3] := by
  refine ⟨?_, ?_, by decide, by decide⟩
  · simp [interpret, mathematical_operation, hs]
  · intro ha
    simp [interpret, mathematical_operation, hs, ha]

/-- Witness for C1 at the concrete stack `[2, 7]` (top `2`). -/
theorem C1_sub_div_semantics_witness :
    (interpret { InterpreterState.new [] with stack := [2, 7] }
        Operator.Subtraction).map InterpreterState.stack = some [5]
    ∧ (interpret { InterpreterState.new [] with stack := [2, 7] }
        Operator.Division).map InterpreterState.stack = some [3] := by
  have h := C1_sub_div_semantics { InterpreterState.new [] with stack := [2, 7] } 2 7 [] rfl
  exact ⟨by simpa using h.1, by simpa using h.2.1 (by norm_num)⟩

/-- Counterexample to C2: `Duplicate` on an empty stack succeeds (the
Rust code guards with `is_empty` and silently does nothing) instead of
failing with a stack underflow. -/
theorem C2_counterexample :
    (interpret (InterpreterState.new []) Operator.Duplicate).map
      InterpreterState.stack = some [] := by decide

/-- Claim C2 (amended): `Duplicate` on an empty stack is a silent no-op
leaving the stack empty, with no error; on stack `[5]` it yields
`[5, 5]`. -/
theorem C2_duplicate_no_underflow (s : InterpreterState) :
    (s.stack = [] →
      (interpret s Operator.Duplicate).map InterpreterState.stack = some [])
    ∧ (s.stack = [5] →
      (interpret s Operator.Duplicate).map InterpreterState.stack = some [5, 5]) := by
  constructor
  · intro h; simp [interpret, h]
  · intro h; simp [interpret, h]

/-- Witness for C2 at the empty stack and at stack `[5]`. -/
theorem C2_duplicate_no_underflow_witness :
    (interpret { InterpreterState.new [] with stack := ([] : List Int) }
        Operator.Duplicate).map InterpreterState.stack = some []
    ∧ (interpret { InterpreterState.new [] with stack := [5] }
        Operator.Duplicate).map InterpreterState.stack = some [5, 5] :=
  ⟨(C2_duplicate_no_underflow { InterpreterState.new [] with stack := [] }).1 rfl,
   (C2_duplicate_no_underflow { InterpreterState.new [] with stack := [5] }).2 rfl⟩

/-- Counterexample to C3: the character with code point 256 appearing in
a grid in string mode decodes to `PushAsciiValue 0` (the Rust cast
`c as u8` truncates the code point to one byte) and executing the program
pushes `0`, not the code point `256`. -/
theorem C3_counterexample :
    parse_operator ReaderMode.String (Char.ofNat 256) = Operator.PushAsciiValue 0
    ∧ (Char.ofNat 256).toNat = 256
    ∧ (runSteps (InterpreterState.new
        [[quoteChar, Char.ofNat 256, quoteChar, '@']]) 2).map
        InterpreterState.stack = some [0] :=
  ⟨by decide, by decide, by decide⟩

/-- Claim C3 (amended): in string mode any character other than `"`
decodes to `PushAsciiValue` of its code point truncated to the low byte
(`% 256`), and executing it pushes that byte; the byte equals the code
point exactly when the code point is below 256. -/
theorem C3_string_mode_push (c : Char) (s : InterpreterState) (hc : c ≠ quoteChar) :
    parse_operator ReaderMode.String c = Operator.PushAsciiValue (c.toNat % 256)
    ∧ (interpret s (parse_operator ReaderMode.String c)).map InterpreterState.stack
        = some (((c.toNat % 256 : Nat) : Int) :: s.stack)
    ∧ (c.toNat < 256 → ((c.toNat % 256 : Nat) : Int) = (c.toNat : Int)) := by
  have hp : parse_operator ReaderMode.String c = Operator.PushAsciiValue (c.toNat % 256) := by
    simp [parse_operator, hc]
  refine ⟨hp, ?_, ?_⟩
  · rw [hp]; simp [interpret]
  · intro h
    exact_mod_cast congrArg (Nat.cast : Nat → Int) (Nat.mod_eq_of_lt h)

/-- Witness for C3 at the character `a` (code point 97). -/
theorem C3_string_mode_push_witness :
    parse_operator ReaderMode.String 'a' = Operator.PushAsciiValue 97
    ∧ (interpret (InterpreterState.new []) (parse_operator ReaderMode.String 'a')).map
        InterpreterState.stack = some [97] := by
  have h := C3_string_mode_push 'a' (InterpreterState.new []) (by decide)
  exact ⟨by simpa using h.1, by simpa using h.2.1⟩

/-- Counterexample to C4: executing `End` on the fresh state of the 1×1
grid `@` sets `terminated` but the position still advances to column 1 —
the end-of-step advance in the source is unconditional, so the position
does not stay unchanged on a terminating step. -/
theorem C4_counterexample :
    (interpret (InterpreterState.new [['@']]) Operator.End).map
      (fun t => (t.terminated, t.row, t.col)) = some (true, 0, 1) := by decide

/-- Claim C4 (amended): `End` sets `terminated` to true, but the
end-of-step advance still happens on every non-panicking step, the
terminating one included: the position moves by the direction's unit
vector.  The advanced position is never decoded, since `next_operation`
yields nothing once `terminated` is set. -/
theorem C4_end_terminates_but_advances (s : InterpreterState) :
    (interpret s Operator.End).map (fun t => (t.terminated, t.row, t.col))
      = some (true,
          s.row + (Direction.get_move s.direction).row,
          s.col + (Direction.get_move s.direction).col)
    ∧ ∀ t, interpret s Operator.End = some t → next_operation t = none := by
  constructor
  · simp [interpret]
  · intro t ht
    simp [interpret] at ht
    subst ht
    simp [next_operation]

/-- Witness for C4 on the 1×1 grid `@`. -/
theorem C4_end_terminates_but_advances_witness :
    (interpret (InterpreterState.new [['@']]) Operator.End).map
      (fun t => (t.terminated, t.row, t.col)) = some (true, 0, 1)
    ∧ next_operation
        { InterpreterState.new [['@']] with col := 1, terminated := true } = none := by
  have h := C4_end_terminates_but_advances (InterpreterState.new [['@']])
  exact ⟨by simpa using h.1, h.2 _ (by decide)⟩

/-- Counterexample to C5: the value 97 pushed by the string-mode
character push of `a` takes part in `Addition` with the digit 1, and the
operation succeeds with result 98 instead of failing: the stack is
untagged, so no type mismatch can be detected. -/
theorem C5_counterexample :
    parse_operator ReaderMode.String 'a' = Operator.PushAsciiValue 97
    ∧ (runSteps (InterpreterState.new
        [[quoteChar, 'a', quoteChar, '1', '+', '@']]) 5).map
        InterpreterState.stack = some [98] :=
  ⟨by decide, by decide⟩

/-- Claim C5 (amended): the interpreter's stack holds plain integers with
no numeric/character tag, so values pushed by `PushAsciiValue` are
indistinguishable from digits: every arithmetic operator computes its
result whenever at least two values are stacked, whatever their origin
(`Division` additionally needs a nonzero first-popped operand), and fails
(panics) only when fewer than two values are present. -/
theorem C5_arithmetic_untagged (s : InterpreterState) :
    (∀ x y rest, s.stack = x :: y :: rest →
       (interpret s Operator.Addition).map InterpreterState.stack = some ((x + y) :: rest)
       ∧ (interpret s Operator.Subtraction).map InterpreterState.stack
           = some ((y - x) :: rest)
       ∧ (interpret s Operator.Multiplication).map InterpreterState.stack
           = some ((x * y) :: rest)
       ∧ (x ≠ 0 → (interpret s Operator.Division).map InterpreterState.stack
           = some (Int.tdiv y x :: rest)))
    ∧ (s.stack.length < 2 →
       interpret s Operator.Addition = none
       ∧ interpret s Operator.Subtraction = none
       ∧ interpret s Operator.Multiplication = none
       ∧ interpret s Operator.Division = none) := by
  constructor
  · intro x y rest h
    refine ⟨?_, ?_, ?_, fun hx => ?_⟩
    · simp [interpret, mathematical_operation, h]
    · simp [interpret, mathematical_operation, h]
    · simp [interpret, mathematical_operation, h]
    · simp [interpret, mathematical_operation, h, hx]
  · intro hlen
    match hstk : s.stack with
    | [] =>
      refine ⟨?_, ?_, ?_, ?_⟩ <;> simp [interpret, mathematical_operation, hstk]
    | [x] =>
      refine ⟨?_, ?_, ?_, ?_⟩ <;> simp [interpret, mathematical_operation, hstk]
    | x :: y :: rest =>
      exfalso
      rw [hstk] at hlen
      simp at hlen
      omega
/-- Witness for C5 at the stack `[1, 2]` and at the empty stack. -/
theorem C5_arithmetic_untagged_witness :
    (interpret { InterpreterState.new [] with stack := [1, 2] }
        Operator.Addition).map InterpreterState.stack = some [3]
    ∧ interpret (InterpreterState.new []) Operator.Addition = none := by
  have h1 := (C5_arithmetic_untagged { InterpreterState.new [] with stack := [1, 2] }).1
    1 2 [] rfl
  have h2 := (C5_arithmetic_untagged (InterpreterState.new [])).2 (by decide)
  exact ⟨by simpa using h1.1, h2.1⟩

/-- Claim C6: `Get` pops `y` first and `x` second, reads the grid at row
`x`, column `y`, and pushes the code point found there — pushing 0
instead of failing when the lookup is out of range; on the 1×1 grid `@`
with both coordinates 0 it pushes 64. -/
theorem C6_get_semantics (s : InterpreterState) (y x : Int) (rest : List Int)
    (hs : s.stack = y :: x :: rest) :
    (interpret s Operator.Get).map InterpreterState.stack
      = some (gridGet s.program x y :: rest)
    ∧ (gridCharAt s.program x y = none → gridGet s.program x y = 0)
    ∧ (∀ ch, gridCharAt s.program x y = some ch →
        gridGet s.program x y = (ch.toNat : Int))
    ∧ (interpret { InterpreterState.new [['@']] with stack := [0, 0] }
        Operator.Get).map InterpreterState.stack = some [64] := by
  refine ⟨?_, ?_, ?_, by decide⟩
  · by_cases hx : (0 : Int) ≤ x
    · cases hline : s.program[x.toNat]? with
      | none =>
        by_cases hy : (0 : Int) ≤ y <;>
          simp [interpret, hs, gridGet, gridCharAt, hx, hy, hline]
      | some ln =>
        by_cases hy : (0 : Int) ≤ y
        · cases hch : ln[y.toNat]? with
          | none => simp [interpret, hs, gridGet, gridCharAt, hx, hy, hline, hch]
          | some ch => simp [interpret, hs, gridGet, gridCharAt, hx, hy, hline, hch]
        · simp [interpret, hs, gridGet, gridCharAt, hx, hy, hline]
    · simp [interpret, hs, gridGet, gridCharAt, hx]
  · intro h; simp [gridGet, h]
  · intro ch h; simp [gridGet, h]

/-- Witness for C6 at the stack `[0, 0]` on the 1×1 grid `@` (both
in-range and the out-of-range reading at `(5, 7)` on the same grid). -/
theorem C6_get_semantics_witness :
    (interpret { InterpreterState.new [['@']] with stack := [0, 0] }
        Operator.Get).map InterpreterState.stack = some [64]
    ∧ (interpret { InterpreterState.new [['@']] with stack := [7, 5] }
        Operator.Get).map InterpreterState.stack = some [0] := by
  have h1 := C6_get_semantics { InterpreterState.new [['@']] with stack := [0, 0] }
    0 0 [] rfl
  have h2 := C6_get_semantics { InterpreterState.new [['@']] with stack := [7, 5] }
    7 5 [] rfl
  refine ⟨h1.2.2.2, ?_⟩
  have := h2.1
  rw [this, h2.2.1 (by decide)]

/-- Claim C7: `Bridge` advances the position by one extra unit of the
current direction on top of the standard end-of-step advance — two units
in total — so moving Right from column `c` the next decoded instruction
sits at column `c + 2`: in the program `#12@` the skipped `1` is never
pushed and the first executed instruction after the bridge is `2`. -/
theorem C7_bridge_skips_one_cell (s : InterpreterState) :
    (interpret s Operator.Bridge).map (fun t => (t.row, t.col))
      = some (s.row + 2 * (Direction.get_move s.direction).row,
              s.col + 2 * (Direction.get_move s.direction).col)
    ∧ (s.direction = Direction.Right →
        (interpret s Operator.Bridge).map (fun t => (t.row, t.col))
          = some (s.row, s.col + 2))
    ∧ (runSteps (InterpreterState.new [['#', '1', '2', '@']]) 2).map
        InterpreterState.stack = some [2] := by
  refine ⟨?_, ?_, by decide⟩
  · simp [interpret, Prod.ext_iff]
    constructor <;> ring
  · intro h
    simp [interpret, h, Direction.get_move, Prod.ext_iff]
    omega

/-- Witness for C7 on the fresh state of the program `#12@`. -/
theorem C7_bridge_skips_one_cell_witness :
    (interpret (InterpreterState.new [['#', '1', '2', '@']]) Operator.Bridge).map
        (fun t => (t.row, t.col)) = some (0, 2)
    ∧ (runSteps (InterpreterState.new [['#', '1', '2', '@']]) 2).map
        InterpreterState.stack = some [2] := by
  have h := C7_bridge_skips_one_cell (InterpreterState.new [['#', '1', '2', '@']])
  exact ⟨by simpa using h.2.1 rfl, h.2.2⟩

/-- Claim C8: `PopMoveHorizontal` never fails — on an empty stack the
popped value defaults to 0 (`unwrap_or(0)`) and the direction becomes
Right; a popped 0 also gives Right, and any nonzero popped value gives
Left. -/
theorem C8_pop_move_horizontal (s : InterpreterState) :
    (interpret s Operator.PopMoveHorizontal).isSome = true
    ∧ (s.stack = [] →
        (interpret s Operator.PopMoveHorizontal).map
          (fun t => (t.stack, t.direction)) = some ([], Direction.Right))
    ∧ (∀ v rest, s.stack = v :: rest → v = 0 →
        (interpret s Operator.PopMoveHorizontal).map
          (fun t => (t.stack, t.direction)) = some (rest, Direction.Right))
    ∧ (∀ v rest, s.stack = v :: rest → v ≠ 0 →
        (interpret s Operator.PopMoveHorizontal).map
          (fun t => (t.stack, t.direction)) = some (rest, Direction.Left)) := by
  refine ⟨?_, ?_, ?_, ?_⟩
  · cases hstk : s.stack <;> simp [interpret, hstk]
  · intro h; simp [interpret, h]
  · intro v rest h hv; simp [interpret, h, hv]
  · intro v rest h hv; simp [interpret, h, hv]

/-- Witness for C8 at the empty stack (Right) and at stack `[7]`
(Left). -/
theorem C8_pop_move_horizontal_witness :
    (interpret (InterpreterState.new []) Operator.PopMoveHorizontal).map
      (fun t => (t.stack, t.direction)) = some ([], Direction.Right)
    ∧ (interpret { InterpreterState.new [] with stack := [7] }
        Operator.PopMoveHorizontal).map
      (fun t => (t.stack, t.direction)) = some ([], Direction.Left) :=
  ⟨(C8_pop_move_horizontal (InterpreterState.new [])).2.1 rfl,
   (C8_pop_move_horizontal { InterpreterState.new [] with stack := [7] }).2.2.2
     7 [] rfl (by norm_num)⟩

/-- Every successful `interpret` step either preserves the `terminated`
flag or sets it to true (only `End` sets it); it is never reset. -/
theorem interpret_terminated (s : InterpreterState) (op : Operator) (s' : InterpreterState)
    (h : interpret s op = some s') :
    s'.terminated = s.terminated ∨ s'.terminated = true := by
  cases op with
  | PushDigit d => simp [interpret] at h; subst h; left; rfl
  | PushAsciiValue c => simp [interpret] at h; subst h; left; rfl
  | Addition =>
    rcases hstk : s.stack with _ | ⟨v, _ | ⟨w, rest⟩⟩ <;>
      simp [interpret, mathematical_operation, hstk] at h
    subst h; left; rfl
  | Subtraction =>
    rcases hstk : s.stack with _ | ⟨v, _ | ⟨w, rest⟩⟩ <;>
      simp [interpret, mathematical_operation, hstk] at h
    subst h; left; rfl
  | Multiplication =>
    rcases hstk : s.stack with _ | ⟨v, _ | ⟨w, rest⟩⟩ <;>
      simp [interpret, mathematical_operation, hstk] at h
    subst h; left; rfl
  | Division =>
    rcases hstk : s.stack with _ | ⟨v, _ | ⟨w, rest⟩⟩ <;>
      simp [interpret, mathematical_operation, hstk] at h
    by_cases hv : v = 0
    · simp [hv] at h
    · simp [hv] at h; subst h; left; rfl
  | ToggleStringMode => simp [interpret] at h; subst h; left; rfl
  | Pop =>
    rcases hstk : s.stack with _ | ⟨v, rest⟩ <;> simp [interpret, hstk] at h
    subst h; left; rfl
  | Duplicate => simp [interpret] at h; subst h; left; rfl
  | PopMoveHorizontal => simp [interpret] at h; subst h; left; rfl
  | PopMoveVertical => simp [interpret] at h; subst h; left; rfl
  | Get =>
    rcases hstk : s.stack with _ | ⟨v, _ | ⟨w, rest⟩⟩ <;>
      simp [interpret, hstk] at h
    subst h; left; rfl
  | SetDirection d => simp [interpret] at h; subst h; left; rfl
  | Bridge => simp [interpret] at h; subst h; left; rfl
  | NoOp => simp [interpret] at h; subst h; left; rfl
  | End => simp [interpret] at h; subst h; right; rfl
  | Unknown c => simp [interpret] at h

/-- Claim C9: once `terminated` is true the iterator produces no further
elements (`next_operation` is `none`), and no step resets the flag: any
successful `interpret` from a terminated state is still terminated. -/
theorem C9_terminated_absorbing (s : InterpreterState) (op : Operator)
    (s' : InterpreterState) (hterm : s.terminated = true) :
    next_operation s = none ∧ (interpret s op = some s' → s'.terminated = true) := by
  refine ⟨by simp [next_operation, hterm], fun h => ?_⟩
  rcases interpret_terminated s op s' h with h1 | h1
  · rw [h1, hterm]
  · exact h1

/-- Witness for C9 at a concrete terminated state, stepping `NoOp`. -/
theorem C9_terminated_absorbing_witness :
    next_operation { InterpreterState.new [] with terminated := true } = none
    ∧ ({ InterpreterState.new [] with terminated := true, col := 1 }
        : InterpreterState).terminated = true :=
  ⟨(C9_terminated_absorbing { InterpreterState.new [] with terminated := true }
      Operator.NoOp { InterpreterState.new [] with terminated := true, col := 1 }
      rfl).1,
   (C9_terminated_absorbing { InterpreterState.new [] with terminated := true }
      Operator.NoOp { InterpreterState.new [] with terminated := true, col := 1 }
      rfl).2 (by decide)⟩

/-- The byte-to-character conversion in `Pop` (`as u8` then
`char::from`) always yields a code point at most 255. -/
theorem toNat_byteChar_le (v : Int) : (Char.ofNat ((v % 256 : Int)).toNat).toNat ≤ 255 := by
  have h0 : (0 : Int) ≤ v % 256 := Int.emod_nonneg v (by norm_num)
  have h1 : v % 256 < 256 := Int.emod_lt_of_pos v (by norm_num)
  have h2 : (v % 256).toNat < 256 := by omega
  have hv : ((v % 256).toNat).isValidChar := Or.inl (by omega)
  rw [Char.ofNat, dif_pos hv]
  have h3 : (Char.ofNatAux ((v % 256).toNat) hv).toNat = (v % 256).toNat := rfl
  omega

/-- Every successful `interpret` step leaves the output unchanged,
except a `Pop` step, which appends exactly one byte-truncated
character. -/
theorem interpret_output_shape (s : InterpreterState) (op : Operator)
    (s' : InterpreterState) (h : interpret s op = some s') :
    s'.output = s.output
    ∨ (op = Operator.Pop ∧ ∃ v : Int, s'.output = s.output ++ [Char.ofNat ((v % 256 : Int)).toNat]) := by
  cases op with
  | PushDigit d => simp [interpret] at h; subst h; left; rfl
  | PushAsciiValue c => simp [interpret] at h; subst h; left; rfl
  | Addition =>
    rcases hstk : s.stack with _ | ⟨v, _ | ⟨w, rest⟩⟩ <;>
      simp [interpret, mathematical_operation, hstk] at h
    subst h; left; rfl
  | Subtraction =>
    rcases hstk : s.stack with _ | ⟨v, _ | ⟨w, rest⟩⟩ <;>
      simp [interpret, mathematical_operation, hstk] at h
    subst h; left; rfl
  | Multiplication =>
    rcases hstk : s.stack with _ | ⟨v, _ | ⟨w, rest⟩⟩ <;>
      simp [interpret, mathematical_operation, hstk] at h
    subst h; left; rfl
  | Division =>
    rcases hstk : s.stack with _ | ⟨v, _ | ⟨w, rest⟩⟩ <;>
      simp [interpret, mathematical_operation, hstk] at h
    by_cases hv : v = 0
    · simp [hv] at h
    · simp [hv] at h; subst h; left; rfl
  | ToggleStringMode => simp [interpret] at h; subst h; left; rfl
  | Pop =>
    rcases hstk : s.stack with _ | ⟨v, rest⟩ <;> simp [interpret, hstk] at h
    subst h
    right
    exact ⟨rfl, v, by simp [put_ret]⟩
  | Duplicate => simp [interpret] at h; subst h; left; rfl
  | PopMoveHorizontal => simp [interpret] at h; subst h; left; rfl
  | PopMoveVertical => simp [interpret] at h; subst h; left; rfl
  | Get =>
    rcases hstk : s.stack with _ | ⟨v, _ | ⟨w, rest⟩⟩ <;>
      simp [interpret, hstk] at h
    subst h; left; rfl
  | SetDirection d => simp [interpret] at h; subst h; left; rfl
  | Bridge => simp [interpret] at h; subst h; left; rfl
  | NoOp => simp [interpret] at h; subst h; left; rfl
  | End => simp [interpret] at h; subst h; left; rfl
  | Unknown c => simp [interpret] at h

/-- Claim C10: on every reachable state, every character in the output
accumulator has a code point at most 255 — `Pop` truncates the popped
value to one byte before reinterpreting it as a character — and no
operator other than `Pop` modifies the output. -/
theorem C10_output_bytes :
    (∀ (program : List (List Char)) (s : InterpreterState),
        Reachable program s → ∀ c ∈ s.output, c.toNat ≤ 255)
    ∧ (∀ (s : InterpreterState) (op : Operator) (s' : InterpreterState),
        op ≠ Operator.Pop → interpret s op = some s' → s'.output = s.output) := by
  constructor
  · intro program s hr
    induction hr with
    | init => intro c hc; simp [InterpreterState.new] at hc
    | step t t' op _ hnext hint ih =>
      intro c hc
      rcases interpret_output_shape t op t' hint with hout | ⟨_, v, hout⟩
      · exact ih c (hout ▸ hc)
      · rw [hout] at hc
        rcases List.mem_append.mp hc with hc1 | hc2
        · exact ih c hc1
        · rw [List.mem_singleton] at hc2
          subst hc2
          exact toNat_byteChar_le v
  · intro s op s' hop h
    rcases interpret_output_shape s op s' h with hout | ⟨hpop, _⟩
    · exact hout
    · exact absurd hpop hop

/-- Witness for C10 at the initial state of the empty program and a
concrete `NoOp` step. -/
theorem C10_output_bytes_witness :
    (∀ c ∈ (InterpreterState.new ([] : List (List Char))).output, c.toNat ≤ 255)
    ∧ ({ InterpreterState.new [] with col := 1 } : InterpreterState).output
        = (InterpreterState.new ([] : List (List Char))).output :=
  ⟨C10_output_bytes.1 [] (InterpreterState.new []) Reachable.init,
   C10_output_bytes.2 (InterpreterState.new []) Operator.NoOp
     { InterpreterState.new [] with col := 1 } (by decide) (by decide)⟩
